import Mathlib

/-!
Shallow embedding of the djt_http_client repository (TypeScript sources
src/src/http-client.ts, src/src/http-client-interfaces.ts and
src/unnamed/part_000) and proofs about its specification claims.

Conventions of the embedding:
* JavaScript exceptions and rejected promises are modelled with `Except JsError`;
  a caught exception is the `.error` case.
* JavaScript `undefined`/`null` fields are modelled with `Option`; the `NaN`
  stored by `configure` for a missing port is modelled as `none`.
* JavaScript strings are Lean `String`s; `Object` key iteration order is the
  order of the modelled association list.
* The asynchronous race inside `fetchWithTimeout` is modelled as a small state
  machine over the order in which the two completions (fetch settlement and
  timer expiry) are observed; real time is abstracted into that order.
-/

namespace DjtHttpClient

/-- A JavaScript `Error` value (or any thrown value), identified by message. -/
structure JsError where
  message : String
deriving Repr, DecidableEq

/-- A decoded JSON value, as produced by `Response.json()`. Kept small: the
claims only distinguish decoded values from raw bodies. -/
inductive JsonVal where
  | str : String → JsonVal
  | num : Int → JsonVal
  | bool : Bool → JsonVal
  | null : JsonVal
deriving Repr, DecidableEq

/-- A value of a query-parameter mapping: the spec restricts attention to
string, number and boolean values. -/
inductive QueryVal where
  | str : String → QueryVal
  | num : Int → QueryVal
  | bool : Bool → QueryVal
deriving Repr, DecidableEq

deriving instance DecidableEq for Except

/-- The observable surface of a platform `Response`: status data, headers as
delivered by the platform, the body read by `blob()` (modelled as a string of
bytes) and the outcome of `json()` (which can reject on malformed JSON). -/
structure ResponseData where
  status : Nat
  statusText : String
  ok : Bool
  headerList : List (String × String)
  blobData : String
  jsonOutcome : Except JsError JsonVal
deriving Repr, DecidableEq

/-- The `body` field of a response envelope. -/
inductive BodyVal where
  | null : BodyVal
  | blob : String → BodyVal
  | jsError : JsError → BodyVal
  | json : JsonVal → BodyVal
deriving Repr, DecidableEq

/-- The ResponseEnvelope `{code, headers, body, rawResponse?}` returned by
`request`/`_request`. `code = none` and `headers = none` model `undefined`. -/
structure HttpClientResponse where
  code : Option Nat
  headers : Option (List (String × String))
  body : BodyVal
  rawResponse : Option ResponseData := none
deriving Repr, DecidableEq

/-- Result of the external URI parser collaborator `parse(url)`:
`{scheme, host, port, path, userinfo}`; absent components are `none`.
An absent string component may also surface as the empty string, which the
code treats identically (JavaScript falsiness). -/
structure ParsedUrl where
  scheme : Option String := none
  host : Option String := none
  port : Option Int := none
  path : Option String := none
  userinfo : Option String := none
deriving Repr, DecidableEq

/-- The mutable state of an `HttpClient` instance: the fields set by the
constructor and `configure`, plus the URL and header list of the stored
`Request` instance (`this._requestInstance`). Unset string fields are the
empty string, matching JavaScript falsiness of `undefined`. -/
structure ClientConfig where
  scheme : String := ""
  host : String := ""
  path : String := ""
  port : Option Int := none
  authUsername : String := ""
  authPassword : String := ""
  timeout : Int := 30000
  returnRawResponse : Bool := false
  requestUrl : String := ""
  requestHeaders : List (String × String) := []
deriving Repr, DecidableEq

/-- The `params` argument of `request`: absent/`null`, a pre-built string, or
a key-value mapping object. -/
inductive QueryParams where
  | none : QueryParams
  | str : String → QueryParams
  | obj : List (String × QueryVal) → QueryParams
deriving Repr, DecidableEq

/-- The `data` argument of `request`: absent, a raw binary payload
(Blob/ArrayBuffer/ReadableStream), a plain string, or a plain object. -/
inductive RequestData where
  | none : RequestData
  | binary : String → RequestData
  | str : String → RequestData
  | obj : List (String × QueryVal) → RequestData
deriving Repr, DecidableEq

/-- The `requestArgs` record assembled by `request` and consumed by
`_request`. -/
structure RequestArgs where
  headers : List (String × String) := []
  params : Option String := none
  separator : Option String := none
  body : Option String := none
deriving Repr, DecidableEq

/-- Which `Request` handle `_request` dispatches on: the configured
`this._requestInstance`, or a fresh one built from a URL with the query
string appended. -/
inductive RequestHandle where
  | configured : RequestHandle
  | fresh : String → RequestHandle
deriving Repr, DecidableEq

/-! ## Header helpers (the `Headers` collaborator)

`Headers` lowercases names; `set` overwrites, `has` tests presence. -/

/-- JavaScript `String.toLowerCase`, modelled character by character (the
strings the client lowercases are ASCII). -/
def jsToLower (s : String) : String :=
  ⟨s.toList.map Char.toLower⟩

/-- JavaScript `String.endsWith`. -/
def jsEndsWith (s suffix : String) : Bool :=
  suffix.toList.isSuffixOf s.toList

/-- Model of `Headers.has`. -/
def headersHas (hs : List (String × String)) (name : String) : Bool :=
  hs.any (fun p => p.1 == jsToLower name)

/-- Model of `Headers.set`: replaces any existing value under the
case-insensitive name. -/
def headersSet (hs : List (String × String)) (name value : String) : List (String × String) :=
  hs.filter (fun p => p.1 != jsToLower name) ++ [(jsToLower name, value)]

/-- Header-name normalization in `_request`: `name.toLowerCase()` followed by
the global replacement of every dash by an underscore (part_000 variant). -/
def normalizeHeaderName (s : String) : String :=
  ⟨(jsToLower s).toList.map (fun c => if c = '-' then '_' else c)⟩

/-- Normalization of the platform response headers into the envelope
`headers` mapping; both platform iteration capabilities (callback form and
entries form) produce this same mapping. -/
def normalizeHeaders (hs : List (String × String)) : List (String × String) :=
  hs.map (fun p => (normalizeHeaderName p.1, p.2))

/-- Lookup in a JavaScript-object-backed header mapping: a later assignment
under the same key wins. -/
def headerAssocLookup (hs : List (String × String)) (key : String) : Option String :=
  (hs.reverse.find? (fun p => p.1 == key)).map (fun p => p.2)

/-! ## fetchWithTimeout: the timeout race (claim C2)

`fetchWithTimeout` creates a promise, starts a single-fire timer, and races
it against `fetch`. The promise settles at most once. The race is modelled
as a state machine processing the completions in observation order. -/

/-- How the race promise settled. -/
inductive RaceOutcome where
  | resolved : ResponseData → RaceOutcome
  | rejected : JsError → RaceOutcome
deriving Repr, DecidableEq

/-- State of one `fetchWithTimeout` invocation: whether an AbortController
exists, how the promise has settled (if at all), whether `clearTimeout` has
run, whether the timer callback has already run, and whether abort was
signalled to the in-flight fetch. -/
structure RaceState where
  hasAbortController : Bool
  settled : Option RaceOutcome := none
  timerCleared : Bool := false
  timerFired : Bool := false
  abortSignalled : Bool := false
deriving Repr, DecidableEq

/-- The error the timer callback rejects with when no cancellation
capability exists. -/
def timeoutError : JsError := ⟨"Timeout occurred"⟩

/-- Asynchronous completions that can be observed by the race. -/
inductive RaceEvent where
  | fetchSuccess : ResponseData → RaceEvent
  | fetchFailure : JsError → RaceEvent
  | timerFire : RaceEvent
deriving Repr, DecidableEq

/-- One observed completion, exactly as the callbacks in `fetchWithTimeout`
react to it:
* fetch resolves: `self.clearTimeout(timeoutId); resolve(response)` —
  the timer is cleared and, if the promise is unsettled, it resolves;
* fetch rejects: `.catch(reject)` — settle-once rejection;
* the single-fire timer expires: nothing happens if it was cleared or already
  ran; otherwise without an AbortController it rejects with the timeout
  error, and with one it signals abort on the in-flight fetch. -/
def raceStep (s : RaceState) : RaceEvent → RaceState
  | .fetchSuccess r =>
      let s := { s with timerCleared := true }
      if s.settled.isNone then { s with settled := some (.resolved r) } else s
  | .fetchFailure e =>
      if s.settled.isNone then { s with settled := some (.rejected e) } else s
  | .timerFire =>
      if s.timerCleared || s.timerFired then s
      else
        let s := { s with timerFired := true }
        if s.hasAbortController then { s with abortSignalled := true }
        else if s.settled.isNone then { s with settled := some (.rejected timeoutError) } else s

/-- Run the race over the completions in observation order. -/
def runRace (s : RaceState) (events : List RaceEvent) : RaceState :=
  events.foldl raceStep s

/-- Initial state of one `fetchWithTimeout` call. -/
def initRaceState (hasAbortController : Bool) : RaceState :=
  { hasAbortController := hasAbortController }

/-! ## Percent encoding (`HttpClient.encode` and its collaborators)

`encodeURIComponent` leaves the unreserved characters
A-Z a-z 0-9 dash underscore dot bang tilde star quote parens untouched and
percent-encodes every other character as the uppercase hex escapes of its
UTF-8 bytes. `HttpClient.encode` then replaces the FIRST occurrence of
"%20" by "+" (JavaScript `String.replace` with a string pattern replaces
only the first match). -/

/-- The characters `encodeURIComponent` leaves unescaped. `Char.ofNat 39`
is the single-quote character. -/
def unreservedChar (c : Char) : Bool :=
  ('A' ≤ c && c ≤ 'Z') || ('a' ≤ c && c ≤ 'z') || ('0' ≤ c && c ≤ '9')
  || c = '-' || c = '_' || c = '.' || c = '!' || c = '~' || c = '*'
  || c = Char.ofNat 39 || c = '(' || c = ')'

/-- The UTF-8 bytes of a character, by the standard bit layout. -/
def utf8Bytes (c : Char) : List Nat :=
  if c.toNat < 0x80 then [c.toNat]
  else if c.toNat < 0x800 then [0xC0 + c.toNat / 64, 0x80 + c.toNat % 64]
  else if c.toNat < 0x10000 then
    [0xE0 + c.toNat / 4096, 0x80 + (c.toNat / 64) % 64, 0x80 + c.toNat % 64]
  else
    [0xF0 + c.toNat / 262144, 0x80 + (c.toNat / 4096) % 64, 0x80 + (c.toNat / 64) % 64,
     0x80 + c.toNat % 64]

/-- Uppercase hexadecimal digit characters. -/
def hexDigitChar (n : Nat) : Char :=
  match n with
  | 0 => '0' | 1 => '1' | 2 => '2' | 3 => '3' | 4 => '4'
  | 5 => '5' | 6 => '6' | 7 => '7' | 8 => '8' | 9 => '9'
  | 10 => 'A' | 11 => 'B' | 12 => 'C' | 13 => 'D' | 14 => 'E' | _ => 'F'

/-- Value of a hexadecimal digit character (both cases accepted). -/
def hexCharVal (c : Char) : Option Nat :=
  if '0' ≤ c && c ≤ '9' then some (c.toNat - 48)
  else if 'A' ≤ c && c ≤ 'F' then some (c.toNat - 55)
  else if 'a' ≤ c && c ≤ 'f' then some (c.toNat - 87)
  else none

/-- `encodeURIComponent` on one character. -/
def encodeURIComponentChar (c : Char) : List Char :=
  if unreservedChar c then [c]
  else ((utf8Bytes c).map (fun b => ['%', hexDigitChar (b / 16), hexDigitChar (b % 16)])).flatten

/-- `encodeURIComponent` on a character list. -/
def encodeURIComponentChars (cs : List Char) : List Char :=
  (cs.map encodeURIComponentChar).flatten

/-- Replace the first occurrence of "%20" by "+"; the JavaScript
`.replace(pattern-string, replacement)` semantics. -/
def replace20First : List Char → List Char
  | [] => []
  | c :: rest =>
    if ['%', '2', '0'].isPrefixOf (c :: rest) then '+' :: rest.drop 2
    else c :: replace20First rest

/-- `HttpClient.encode`:
`encodeURIComponent(value).replace(percent-two-zero, plus)`. -/
def HttpClient.encode (s : String) : String :=
  ⟨replace20First (encodeURIComponentChars s.toList)⟩

/-- Rendering asserted by the spec sentence of claim C7: percent-encoding in
which EVERY space is encoded as a plus sign (a global replacement of "%20").
Written from the words of the spec, to be compared with `HttpClient.encode`. -/
def replace20All : List Char → List Char
  | '%' :: '2' :: '0' :: rest => '+' :: replace20All rest
  | c :: rest => c :: replace20All rest
  | [] => []

/-- The spec-claimed encoding of claim C7 (every space as plus). -/
def specEncodeEverySpacePlus (s : String) : String :=
  ⟨replace20All (encodeURIComponentChars s.toList)⟩

/-- Percent-decoding of a query segment into bytes: an escape contributes its
byte, a plus sign contributes the space byte 32, and any other character
contributes its UTF-8 bytes. -/
def percentDecodeBytes : List Char → Option (List Nat)
  | [] => some []
  | c :: rest =>
    if c = '%' then
      match rest with
      | h1 :: rest1 =>
        match rest1 with
        | h2 :: rest2 =>
          match hexCharVal h1 with
          | some a =>
            match hexCharVal h2 with
            | some b => (percentDecodeBytes rest2).map (fun bs => (a * 16 + b) :: bs)
            | none => none
          | none => none
        | [] => none
      | [] => none
    else if c = '+' then
      (percentDecodeBytes rest).map (fun bs => 32 :: bs)
    else
      (percentDecodeBytes rest).map (fun bs => utf8Bytes c ++ bs)

/-- UTF-8 decoding of a byte list, inverting `utf8Bytes`. -/
def decodeUtf8 : List Nat → Option (List Char)
  | [] => some []
  | b :: rest =>
    if b < 0x80 then
      (decodeUtf8 rest).map (fun cs => Char.ofNat b :: cs)
    else if b < 0xC0 then none
    else if b < 0xE0 then
      match rest with
      | b2 :: rest2 =>
        if 0x80 ≤ b2 ∧ b2 < 0xC0 then
          (decodeUtf8 rest2).map (fun cs => Char.ofNat ((b - 0xC0) * 64 + (b2 - 0x80)) :: cs)
        else none
      | [] => none
    else if b < 0xF0 then
      match rest with
      | b2 :: rest2 =>
        match rest2 with
        | b3 :: rest3 =>
          if (0x80 ≤ b2 ∧ b2 < 0xC0) ∧ (0x80 ≤ b3 ∧ b3 < 0xC0) then
            (decodeUtf8 rest3).map
              (fun cs => Char.ofNat ((b - 0xE0) * 4096 + (b2 - 0x80) * 64 + (b3 - 0x80)) :: cs)
          else none
        | [] => none
      | [] => none
    else
      match rest with
      | b2 :: rest2 =>
        match rest2 with
        | b3 :: rest3 =>
          match rest3 with
          | b4 :: rest4 =>
            if ((0x80 ≤ b2 ∧ b2 < 0xC0) ∧ (0x80 ≤ b3 ∧ b3 < 0xC0)) ∧ (0x80 ≤ b4 ∧ b4 < 0xC0) then
              (decodeUtf8 rest4).map
                (fun cs =>
                  Char.ofNat ((b - 0xF0) * 262144 + (b2 - 0x80) * 4096 + (b3 - 0x80) * 64
                    + (b4 - 0x80)) :: cs)
            else none
          | [] => none
        | [] => none
      | [] => none

/-- Full percent-decoding of a segment (with plus decoded as a space),
recovering a character list from the UTF-8 bytes. -/
def percentDecodeSegment (l : List Char) : Option (List Char) :=
  (percentDecodeBytes l).bind decodeUtf8

/-! ## Splitting and joining -/

/-- Split a character list on a separator character (full split, like the
JavaScript `String.split` with a character separator and no limit). -/
def splitOnChar (sep : Char) : List Char → List (List Char)
  | [] => [[]]
  | c :: rest =>
    let r := splitOnChar sep rest
    if c = sep then [] :: r
    else
      match r with
      | h :: t => (c :: h) :: t
      | [] => [[c]]

/-- JavaScript `Array.join(separator)` over strings. -/
def joinWithSep (sep : String) : List String → String
  | [] => ""
  | [x] => x
  | x :: xs => x ++ sep ++ joinWithSep sep xs

/-- JavaScript `userinfo.split(colon, 2)`: full split on the colon, truncated
to the first two fields. -/
def userinfoSplit2 (ui : String) : List String :=
  ((splitOnChar ':' ui.toList).take 2).map (fun l => ⟨l⟩)

/-! ## btoa (base64 of a latin1 string)

`btoa` throws an InvalidCharacterError on code points above 255; otherwise it
base64-encodes the byte string. Only its success/failure split matters to the
claims (the Authorization header value is never inspected). -/

/-- The base64 alphabet. -/
def base64Chars : List Char :=
  "ABCDEFGHIJKLMNOPQRSTUVWXYZabcdefghijklmnopqrstuvwxyz0123456789+/".toList

/-- One base64 output character. -/
def base64Char (n : Nat) : Char := base64Chars.getD n '='

/-- Base64 of a byte list. -/
def base64Encode : List Nat → List Char
  | [] => []
  | [b1] => [base64Char (b1 / 4), base64Char ((b1 % 4) * 16), '=', '=']
  | [b1, b2] =>
    [base64Char (b1 / 4), base64Char ((b1 % 4) * 16 + b2 / 16), base64Char ((b2 % 16) * 4), '=']
  | b1 :: b2 :: b3 :: rest =>
    [base64Char (b1 / 4), base64Char ((b1 % 4) * 16 + b2 / 16),
     base64Char ((b2 % 16) * 4 + b3 / 64), base64Char (b3 % 64)] ++ base64Encode rest

/-- The `btoa` platform collaborator. -/
def btoa (s : String) : Except JsError String :=
  if s.toList.all (fun c => c.toNat < 256) then
    .ok ⟨base64Encode (s.toList.map Char.toNat)⟩
  else .error ⟨"InvalidCharacterError"⟩

/-! ## Transport Core operations -/

/-- The static `COMPATIBLE_SCHEMES` list. -/
def COMPATIBLE_SCHEMES : List String := ["http", "https"]

/-- One `key=value` entry of `buildRequestParameters`, following the if-chain
of the source: non-boolean values are encoded (numbers after `toString`),
`true` renders as `=1` and `false` as `=0` with the digit appended raw. -/
def buildEntry (key : String) (v : QueryVal) : String :=
  match v with
  | .str s => HttpClient.encode key ++ "=" ++ HttpClient.encode s
  | .num n => HttpClient.encode key ++ "=" ++ HttpClient.encode (toString n)
  | .bool b => if b then HttpClient.encode key ++ "=1" else HttpClient.encode key ++ "=0"

/-- The string rendition of a query value as `buildRequestParameters` emits
it: strings as themselves, numbers via `toString`, booleans as "1"/"0". -/
def queryValString : QueryVal → String
  | .str s => s
  | .num n => toString n
  | .bool b => if b then "1" else "0"

/-- `HttpClient.buildRequestParameters` (part_000 variant): a string argument
skips the build and the initial `null` is returned; a mapping is rendered to
separator-joined entries; `undefined`/`null` reaches `Object.keys` and throws
a TypeError. -/
def HttpClient.buildRequestParameters (params : QueryParams) (separator : String) :
    Except JsError (Option String) :=
  match params with
  | .str _ => .ok none
  | .none => .error ⟨"TypeError: Cannot convert undefined or null to object"⟩
  | .obj fields =>
      .ok (some (joinWithSep separator (fields.map (fun e => buildEntry e.1 e.2))))

/-- `HttpClient.buildRequestParameters` (legacy http-client.ts variant): any
truthy argument reaches `Object.keys`; for a non-empty string that iterates
the character indices, producing `index=character` entries. -/
def HttpClient.buildRequestParametersLegacy (params : QueryParams) (separator : String) :
    Except JsError (Option String) :=
  match params with
  | .none => .ok none
  | .str s =>
      if s = "" then .ok none
      else
        .ok (some (joinWithSep separator
          ((List.range s.length).zip s.toList |>.map
            (fun e => buildEntry (toString e.1) (.str ⟨[e.2]⟩)))))
  | .obj fields =>
      if fields = [] then .ok none
      else .ok (some (joinWithSep separator (fields.map (fun e => buildEntry e.1 e.2))))

/-- `configureFromUrl`: builds a fresh `Request` from the URL, carrying the
existing header state (and cache/credentials/redirect policy) forward. Only
the URL and headers are observable in this model. -/
def HttpClient.configureFromUrl (c : ClientConfig) (url : String) : ClientConfig :=
  { c with requestUrl := url }

/-- The userinfo extraction inside `configure`:
`userinfo.split(colon, 2)` gives the username and, when a second field
exists, `slice(1).join(colon)` of the truncated split gives the password. -/
def applyUserinfo (c : ClientConfig) (ui : String) : ClientConfig :=
  let authData := userinfoSplit2 ui
  { c with
    authUsername := match authData with | [] => "" | u :: _ => u
    authPassword :=
      if authData.length > 1 then joinWithSep ":" (authData.drop 1) else "" }

/-- `HttpClient.configure`: parses the URL through the external URI-parser
collaborator (the parse result is passed in), validates the lowercased
scheme against `COMPATIBLE_SCHEMES` and the host for presence, then stores
scheme, auth (when a userinfo component is truthy), host, path (defaulting
to "/" when absent or empty) and port, and rebuilds the request instance
from the URL. A missing port is stored as `NaN`, modelled `none`. -/
def HttpClient.configure (c : ClientConfig) (url : String) (parsed : ParsedUrl) :
    Except JsError ClientConfig :=
  let scheme := match parsed.scheme with | some s => jsToLower s | none => ""
  let host := match parsed.host with | some h => h | none => ""
  if scheme = "" || !(COMPATIBLE_SCHEMES.contains scheme) || host = "" then
    .error ⟨"Given URL is not an HTTP client compatible resource"⟩
  else
    let c := { c with scheme := scheme }
    let c := match parsed.userinfo with
      | some ui => if ui ≠ "" then applyUserinfo c ui else c
      | none => c
    let c := { c with
      host := host
      path := match parsed.path with | some p => if p = "" then "/" else p | none => "/"
      port := parsed.port }
    .ok (HttpClient.configureFromUrl c url)

/-- The `HttpClient` constructor: stores raw-response mode, the timeout in
milliseconds (`timeout * 1000`), and configures from the URL. -/
def HttpClient.construct (url : String) (parsed : ParsedUrl) (timeoutSeconds : Int)
    (returnRawResponse : Bool) : Except JsError ClientConfig :=
  HttpClient.configure
    { timeout := timeoutSeconds * 1000, returnRawResponse := returnRawResponse } url parsed

/-- The `url` property setter: delegates to `configure`. -/
def HttpClient.setUrl (c : ClientConfig) (url : String) (parsed : ParsedUrl) :
    Except JsError ClientConfig :=
  HttpClient.configure c url parsed

/-- Truthiness of `requestArgs.params` in `_request`: present and
non-empty. -/
def paramsTruthy : Option String → Bool
  | Option.none => false
  | some p => p ≠ ""

/-- The final request target URL built by `_request` (part_000 variant) for a
truthy query string: `scheme + "://" + host + path`, then a question mark
exactly when the params string does not already contain one, then the params
string and nothing else. -/
def requestTargetUrl (c : ClientConfig) (p : String) : String :=
  c.scheme ++ "://" ++ c.host ++ c.path ++ (if p.toList.contains '?' then "" else "?") ++ p

/-- The final request target URL built by the legacy http-client.ts
`_request`: as in `requestTargetUrl`, but additionally appending the
separator when the params string does not already end with it. -/
def requestTargetUrlLegacy (c : ClientConfig) (p sep : String) : String :=
  requestTargetUrl c p ++ (if jsEndsWith p sep then "" else sep)

/-- The `Request` handle `_request` (part_000) dispatches on: a fresh one for
a truthy query string, otherwise the previously configured instance. -/
def requestHandleFor (c : ClientConfig) (params : Option String) : RequestHandle :=
  match params with
  | some p => if p ≠ "" then .fresh (requestTargetUrl c p) else .configured
  | Option.none => .configured

/-- The handle selection of the legacy `_request`, with its extra trailing
separator. -/
def requestHandleForLegacy (c : ClientConfig) (params : Option String) (sep : String) :
    RequestHandle :=
  match params with
  | some p => if p ≠ "" then .fresh (requestTargetUrlLegacy c p sep) else .configured
  | Option.none => .configured

/-- The URL a handle stands for. -/
def handleUrl (c : ClientConfig) : RequestHandle → String
  | .configured => c.requestUrl
  | .fresh u => u

/-- The response-normalization tail of `_request` (part_000): headers are
lowercased with dashes replaced by underscores, `code` is the numeric
status, the raw response is attached in raw-response mode, `body` is the
Error `String(status) + statusText` for a non-ok status, the blob for an ok
status outside HEAD and raw-response mode, and `null` otherwise. -/
def HttpClient.newResponse (c : ClientConfig) (method : String) (response : ResponseData) :
    HttpClientResponse :=
  let base : HttpClientResponse :=
    { code := some response.status
      headers := some (normalizeHeaders response.headerList)
      body := .null
      rawResponse := if c.returnRawResponse then some response else none }
  if !response.ok then
    { base with body := .jsError ⟨toString response.status ++ response.statusText⟩ }
  else if method ≠ "HEAD" && !c.returnRawResponse then
    { base with body := .blob response.blobData }
  else base

/-- `HttpClient._request` (part_000): picks the request handle (appending a
truthy query string to a fresh URL), dispatches the send — through the
timeout race when `timeout > 0`, else plain `fetch`; either way the
collaborator behavior is the `Except` outcome observed by the `await` — and
normalizes the response into the envelope. -/
def HttpClient.lowRequest (c : ClientConfig) (method : String) (args : RequestArgs)
    (fetchOutcome : String → Except JsError ResponseData) : Except JsError HttpClientResponse := do
  let handle := requestHandleFor c args.params
  let response ← fetchOutcome (handleUrl c handle)
  pure (HttpClient.newResponse c method response)

/-- The type of the overridable low-level send operation `this._request`
(virtual dispatch selects the Transport Core or the wrapper version). -/
def LowRequest : Type :=
  ClientConfig → String → RequestArgs → (String → Except JsError ResponseData) →
    Except JsError HttpClientResponse

/-- The preprocessing of `request` before it delegates to `this._request`:
assembles `requestArgs` (attaching string params verbatim with the
separator), resolves `data` (raw payloads pass through; plain objects are
form-encoded with an ampersand after defaulting the content-type header),
and injects the basic-auth header when a username is set (`btoa` may
throw). Any failure anywhere surfaces as `.error`. -/
def assembleRequestArgs (c : ClientConfig) (separator : String)
    (params : QueryParams) (data : RequestData) : Except JsError RequestArgs := do
  let headers := c.requestHeaders
  let args : RequestArgs :=
    match params with
    | .str s => { headers := headers, params := some s, separator := some separator }
    | _ => { headers := headers }
  let args ←
    match data with
    | .binary s => pure { args with body := some s }
    | .str s => pure { args with body := some s }
    | .obj fields => do
        let args :=
          if headersHas args.headers "content-type" then args
          else { args with
                 headers := headersSet args.headers "Content-Type"
                   "application/x-www-form-urlencoded" }
        let qp ← HttpClient.buildRequestParameters (.obj fields) "&"
        pure { args with body := qp }
    | .none => pure args
  if c.authUsername ≠ "" then do
    let b ← btoa (c.authUsername ++ ":" ++ c.authPassword)
    pure { args with headers := headersSet args.headers "Authorization" ("Basic " ++ b) }
  else pure args

/-- The body of `HttpClient.request` before the catch-all, with the
dynamically dispatched `this._request` as a parameter: the preprocessing
above followed by the low-level send. -/
def requestInnerWith (low : LowRequest) (c : ClientConfig) (method separator : String)
    (params : QueryParams) (data : RequestData)
    (fetchOutcome : String → Except JsError ResponseData) : Except JsError HttpClientResponse := do
  let args ← assembleRequestArgs c separator params data
  low c method args fetchOutcome

/-- The body of `HttpClient.request` before the catch-all, on a plain
`HttpClient` instance (dispatch selects `HttpClient._request`). -/
def HttpClient.requestInner (c : ClientConfig) (method separator : String)
    (params : QueryParams) (data : RequestData)
    (fetchOutcome : String → Except JsError ResponseData) : Except JsError HttpClientResponse :=
  requestInnerWith HttpClient.lowRequest c method separator params data fetchOutcome

/-- The envelope `request` returns from its catch handler. -/
def caughtEnvelope (e : JsError) : HttpClientResponse :=
  { code := none, headers := none, body := .jsError e, rawResponse := none }

/-- `HttpClient.request`: the whole body runs inside `try`; a caught
exception is converted into the `{code: undefined, headers: undefined,
body: error}` envelope, so the returned promise always resolves. -/
def HttpClient.request (c : ClientConfig) (method separator : String)
    (params : QueryParams) (data : RequestData)
    (fetchOutcome : String → Except JsError ResponseData) : HttpClientResponse :=
  match HttpClient.requestInner c method separator params data fetchOutcome with
  | .ok env => env
  | .error e => caughtEnvelope e

/-- The result of `buildRequestParameters` as the `params` value handed to
`request` by a verb helper: the `null` result is not a string, so `request`
treats it like an absent argument. -/
def rebuiltParams : Option String → QueryParams
  | Option.none => .none
  | some s => .str s

/-- `HttpClient.requestGet`: rebuilds the params through
`buildRequestParameters` (outside the catch-all of `request`, so a throw
there rejects the helper) and forwards to `request` with the GET method. -/
def HttpClient.requestGet (c : ClientConfig) (params : QueryParams) (separator : String)
    (fetchOutcome : String → Except JsError ResponseData) : Except JsError HttpClientResponse := do
  let p ← HttpClient.buildRequestParameters params separator
  pure (HttpClient.request c "GET" separator (rebuiltParams p) .none fetchOutcome)

/-! ## Content Negotiation Wrapper (`HttpJsonClient`) -/

/-- The content-type test of the `newResponse`-based wrapper variant: the
regular expression `application/json` followed by a semicolon or the end,
case-insensitively, searched anywhere in the string (an unanchored test).
`jsonCtHere` checks one position; the recursion searches all positions. -/
def jsonCtHere (l : List Char) : Bool :=
  ("application/json".toList).isPrefixOf l &&
  (match l.drop 16 with
   | [] => true
   | c :: _ => c = ';')

/-- Search for the pattern at every position of the lowercased text. -/
def jsonCtSearch : List Char → Bool
  | [] => false
  | c :: rest => jsonCtHere (c :: rest) || jsonCtSearch rest

/-- Whether a content-type value passes the wrapper regular expression. -/
def jsonCtMatches (ct : String) : Bool :=
  jsonCtSearch (jsToLower ct).toList

/-- `handleJsonResponse`: reads `rawResponse.json()` into `body` and deletes
the raw handle; with no raw handle present the member access throws. -/
def handleJsonResponse (env : HttpClientResponse) : Except JsError HttpClientResponse :=
  match env.rawResponse with
  | some r => r.jsonOutcome.map (fun v => { env with body := .json v, rawResponse := none })
  | none => .error ⟨"TypeError: Cannot read properties of undefined"⟩

/-- `HttpJsonClient.newResponse` (the v1.1 wrapper variant): after the base
normalization, decodes the body as JSON exactly when the `content_type`
response header is present, truthy and passes the regular expression;
otherwise the envelope is returned as the base layer produced it.
The base-class `newResponse` it delegates to is not part of the sources;
it is `HttpClient.newResponse` above. Modelled from the spec: the base
normalization step equals the response-processing tail of `_request`. -/
def HttpJsonClient.newResponse (c : ClientConfig) (method : String) (response : ResponseData) :
    Except JsError HttpClientResponse :=
  let env := HttpClient.newResponse c method response
  match env.headers.bind (fun hs => headerAssocLookup hs "content_type") with
  | some ct => if ct ≠ "" && jsonCtMatches ct then handleJsonResponse env else .ok env
  | none => .ok env

/-- The decode tail of the `_request`-based wrapper variants: whenever the
envelope carries a raw response handle, `body` is replaced by the `json()`
outcome — the content type is never inspected — and the handle is deleted;
a `json()` rejection propagates. -/
def jsonFinalizeResponse (env : HttpClientResponse) : Except JsError HttpClientResponse :=
  match env.rawResponse with
  | some r => r.jsonOutcome.map (fun v => { env with body := .json v, rawResponse := none })
  | none => .ok env

/-- `HttpJsonClient._request` (the `_request`-based wrapper variants): the
base `_request` followed by the unconditional decode tail. -/
def HttpJsonClient.lowRequest (c : ClientConfig) (method : String) (args : RequestArgs)
    (fetchOutcome : String → Except JsError ResponseData) : Except JsError HttpClientResponse := do
  let env ← HttpClient.lowRequest c method args fetchOutcome
  jsonFinalizeResponse env

/-- A minimal model of `JSON.stringify` on a plain string-keyed object; the
produced body string is never inspected by any claim. -/
def jsonStringify (fields : List (String × QueryVal)) : String :=
  "\x7b" ++
    joinWithSep ","
      (fields.map (fun e =>
        "\x22" ++ e.1 ++ "\x22:" ++
        (match e.2 with
         | .str s => "\x22" ++ s ++ "\x22"
         | .num n => toString n
         | .bool b => if b then "true" else "false"))) ++ "\x7d"

/-- The data preprocessing of `HttpJsonClient.request` (before delegating to
the base `request`, hence outside its catch-all): a plain-object payload
defaults the `accept` and `content-type` headers to `application/json` when
absent and is serialized with `JSON.stringify`. -/
def jsonRequestPreprocess (c : ClientConfig) (data : RequestData) :
    ClientConfig × RequestData :=
  match data with
  | .obj fields =>
      let c :=
        if headersHas c.requestHeaders "accept" then c
        else { c with requestHeaders := headersSet c.requestHeaders "accept" "application/json" }
      let c :=
        if headersHas c.requestHeaders "content-type" then c
        else { c with
               requestHeaders :=
                 headersSet c.requestHeaders "content-type" "application/json" }
      (c, .str (jsonStringify fields))
  | d => (c, d)

/-- The inner body of the JSON wrapper pipeline for the `_request`-based
variants: the inherited `request` body with virtual dispatch sending the
low-level step through `HttpJsonClient.lowRequest`. -/
def HttpJsonClient.requestInner (c : ClientConfig) (method separator : String)
    (params : QueryParams) (data : RequestData)
    (fetchOutcome : String → Except JsError ResponseData) : Except JsError HttpClientResponse :=
  requestInnerWith HttpJsonClient.lowRequest c method separator params data fetchOutcome

/-- `HttpJsonClient.request` (the `_request`-based variants): the JSON data
preprocessing, then the inherited `request` whose catch-all converts ANY
rejection of the dispatched `_request` — including a JSON decode rejection —
into the caught envelope. -/
def HttpJsonClient.request (c : ClientConfig) (method separator : String)
    (params : QueryParams) (data : RequestData)
    (fetchOutcome : String → Except JsError ResponseData) : HttpClientResponse :=
  let (c, data) := jsonRequestPreprocess c data
  match HttpJsonClient.requestInner c method separator params data fetchOutcome with
  | .ok env => env
  | .error e => caughtEnvelope e

/-! # Claim theorems -/

/-- Claim C2: in `fetchWithTimeout`, when the underlying fetch resolves
before the timer fires, the timer is cleared, the promise resolves with
that response, and the (cleared) timer callback can no longer have any
effect afterwards; when no AbortController exists and the timer fires
first, the promise rejects with the timeout error and the eventual
settlement of the still-in-flight fetch — resolution or rejection — is
discarded. -/
theorem C2_fetchWithTimeout_race (hasAbort : Bool) (r : ResponseData) (e : JsError) :
    (runRace (initRaceState hasAbort) [.fetchSuccess r]).settled = some (.resolved r)
    ∧ (runRace (initRaceState hasAbort) [.fetchSuccess r]).timerCleared = true
    ∧ runRace (initRaceState hasAbort) [.fetchSuccess r, .timerFire]
        = runRace (initRaceState hasAbort) [.fetchSuccess r]
    ∧ (runRace (initRaceState false) [.timerFire]).settled = some (.rejected timeoutError)
    ∧ (runRace (initRaceState false) [.timerFire, .fetchSuccess r]).settled
        = some (.rejected timeoutError)
    ∧ (runRace (initRaceState false) [.timerFire, .fetchFailure e]).settled
        = some (.rejected timeoutError) := by
  cases hasAbort <;> exact ⟨rfl, rfl, rfl, rfl, rfl, rfl⟩

/-- Claim C1: the whole body of `request` runs inside its try block, so for
every method, separator, params and data argument and every collaborator
behavior the call resolves to an envelope (the model returns a plain
`HttpClientResponse`, never an exceptional outcome); whenever any step of
the inner run fails, the resolved envelope is
`{code: undefined, headers: undefined, body: caught error}`, and a
successful inner run is returned verbatim. -/
theorem C1_request_never_throws (c : ClientConfig) (method separator : String)
    (params : QueryParams) (data : RequestData)
    (fetchOutcome : String → Except JsError ResponseData) :
    (∀ e, HttpClient.requestInner c method separator params data fetchOutcome = .error e →
      HttpClient.request c method separator params data fetchOutcome =
        { code := none, headers := none, body := .jsError e, rawResponse := none })
    ∧ (∀ env, HttpClient.requestInner c method separator params data fetchOutcome = .ok env →
      HttpClient.request c method separator params data fetchOutcome = env) := by
  constructor <;> intro x hx <;> simp [HttpClient.request, hx, caughtEnvelope]

/-- Witness for C1: a network failure of the fetch collaborator is caught
and converted into the error envelope. -/
theorem C1_request_never_throws_witness :
    HttpClient.request { requestUrl := "http://h/" } "GET" ";" .none .none
        (fun _ => .error ⟨"NetworkError"⟩) =
      { code := none, headers := none, body := .jsError ⟨"NetworkError"⟩, rawResponse := none } :=
  (C1_request_never_throws { requestUrl := "http://h/" } "GET" ";" .none .none
    (fun _ => .error ⟨"NetworkError"⟩)).1 ⟨"NetworkError"⟩ (by decide)

/-- Claim C9 counterexample: the legacy http-client.ts `_request` (cited by
the claim) appends a trailing separator to the target URL when the params
string does not already end with it, so the URL is NOT followed by the
params string and nothing else. -/
theorem C9_counterexample :
    requestHandleForLegacy { scheme := "http", host := "h", path := "/p" } (some "a=1") ";"
        = .fresh "http://h/p?a=1;"
    ∧ ("http://h/p?a=1;" : String) ≠ "http://h/p?a=1" :=
  ⟨by decide, by decide⟩

/-- Claim C9 (amended): for a truthy (non-empty) query string the part_000
`_request` builds a fresh request whose URL is scheme ++ "://" ++ host ++
path, then a question mark exactly when the params string contains none,
then the params string and nothing else; the legacy variant additionally
appends the separator when the params string does not already end with it;
with no truthy query string both variants reuse the previously configured
request handle unchanged. -/
theorem C9_request_target (c : ClientConfig) (p sep : String) (hp : p ≠ "") :
    requestHandleFor c (some p)
        = .fresh (c.scheme ++ "://" ++ c.host ++ c.path
            ++ (if p.toList.contains '?' then "" else "?") ++ p)
    ∧ requestHandleForLegacy c (some p) sep
        = .fresh (c.scheme ++ "://" ++ c.host ++ c.path
            ++ (if p.toList.contains '?' then "" else "?") ++ p
            ++ (if jsEndsWith p sep then "" else sep))
    ∧ requestHandleFor c Option.none = .configured
    ∧ requestHandleFor c (some "") = .configured
    ∧ requestHandleForLegacy c Option.none sep = .configured
    ∧ requestHandleForLegacy c (some "") sep = .configured := by
  refine ⟨?_, ?_, rfl, rfl, rfl, rfl⟩ <;>
    simp [requestHandleFor, requestHandleForLegacy, requestTargetUrl, requestTargetUrlLegacy, hp]

/-- Witness for C9 at a concrete query string. -/
theorem C9_request_target_witness :
    requestHandleFor { scheme := "http", host := "h", path := "/p" } (some "a=1")
        = .fresh ("http" ++ "://" ++ "h" ++ "/p"
            ++ (if "a=1".toList.contains '?' then "" else "?") ++ "a=1") :=
  (C9_request_target { scheme := "http", host := "h", path := "/p" } "a=1" ";" (by decide)).1

/-- Claim C8 (evaluation at the failing input): `buildRequestParameters`
does NOT pass a pre-built string through unchanged. In the part_000 variant
it returns the initial `null`, so a verb helper invoked with a pre-built
query string silently issues the request against the configured URL with
the query dropped, while a direct `request` call with the same string does
attach it; in the legacy variant `Object.keys` iterates the character
indices of the string, garbling it into index=character pairs. -/
theorem C8_string_params_dropped :
    HttpClient.buildRequestParameters (.str "a=1") ";" = .ok Option.none
    ∧ HttpClient.buildRequestParametersLegacy (.str "a=1") ";" = .ok (some "0=a;1=%3D;2=1")
    ∧ HttpClient.requestGet
        { scheme := "http", host := "h", path := "/p", requestUrl := "http://h/p" }
        (.str "a=1") ";"
        (fun u => .ok { status := 200, statusText := "", ok := true,
                        headerList := [("X-Url", u)], blobData := "",
                        jsonOutcome := .error ⟨"no"⟩ })
        = .ok { code := some 200, headers := some [("x_url", "http://h/p")],
                body := .blob "", rawResponse := none }
    ∧ HttpClient.request
        { scheme := "http", host := "h", path := "/p", requestUrl := "http://h/p" }
        "GET" ";" (.str "a=1") .none
        (fun u => .ok { status := 200, statusText := "", ok := true,
                        headerList := [("X-Url", u)], blobData := "",
                        jsonOutcome := .error ⟨"no"⟩ })
        = { code := some 200, headers := some [("x_url", "http://h/p?a=1")],
            body := .blob "", rawResponse := none } := by
  exact ⟨by decide, by decide, by decide, by decide⟩

/-! ## Lemmas about splitting -/

theorem splitOnChar_ne_nil (sep : Char) (l : List Char) : splitOnChar sep l ≠ [] := by
  induction l with
  | nil => simp [splitOnChar]
  | cons c rest ih =>
    simp only [splitOnChar]
    by_cases hc : c = sep
    · simp [hc]
    · simp only [hc, if_false]
      cases hr : splitOnChar sep rest with
      | nil => exact absurd hr ih
      | cons h t => simp

theorem splitOnChar_append (sep : Char) (a l : List Char) (ha : sep ∉ a) :
    splitOnChar sep (a ++ sep :: l) = a :: splitOnChar sep l := by
  induction a with
  | nil => simp [splitOnChar]
  | cons c a ih =>
    have hc : ¬(c = sep) := fun h => ha (h ▸ List.mem_cons_self _ _)
    have ha' : sep ∉ a := fun h => ha (List.mem_cons_of_mem _ h)
    simp only [List.cons_append, splitOnChar, hc, if_false, List.append_eq]
    rw [ih ha']

theorem splitOnChar_no_sep (sep : Char) (a : List Char) (ha : sep ∉ a) :
    splitOnChar sep a = [a] := by
  induction a with
  | nil => simp [splitOnChar]
  | cons c a ih =>
    have hc : ¬(c = sep) := fun h => ha (h ▸ List.mem_cons_self _ _)
    have ha' : sep ∉ a := fun h => ha (List.mem_cons_of_mem _ h)
    simp only [splitOnChar, ih ha', hc, if_false]

/-! ## Lemmas about `configure` (claims C6 and C10) -/

/-- Closed form of a successful `configure`. -/
theorem configure_ok (c : ClientConfig) (url : String) (parsed : ParsedUrl) (s h : String)
    (hs : parsed.scheme = some s) (hmem : jsToLower s ∈ COMPATIBLE_SCHEMES)
    (hh : parsed.host = some h) (hne : h ≠ "") :
    HttpClient.configure c url parsed = .ok
      { (match parsed.userinfo with
         | some ui =>
             if ui ≠ "" then applyUserinfo { c with scheme := jsToLower s } ui
             else { c with scheme := jsToLower s }
         | none => { c with scheme := jsToLower s }) with
        host := h
        path := match parsed.path with | some p => if p = "" then "/" else p | none => "/"
        port := parsed.port
        requestUrl := url } := by
  have hlow : jsToLower s = "http" ∨ jsToLower s = "https" := by
    simpa [COMPATIBLE_SCHEMES] using hmem
  have hcond : (jsToLower s = "" || !COMPATIBLE_SCHEMES.contains (jsToLower s) || h = "")
      = false := by
    rcases hlow with h1 | h1 <;> simp [h1, hne, COMPATIBLE_SCHEMES]
  simp only [HttpClient.configure, hs, hh, hcond, Bool.false_eq_true, if_false,
    HttpClient.configureFromUrl]

/-- Claim C6: for every URL whose parsed scheme lowercases to a compatible
scheme ("http" or "https") and whose parsed host is non-empty, `configure`
— hence the constructor and the `url` setter, which delegate to it — stores
the (lowercased) scheme, the host, the port, the path defaulting to "/"
when absent, the request URL, and the userinfo-derived auth fields; for any
other scheme, a missing scheme or a missing host it throws the
configuration error instead. -/
theorem C6_configure_spec (c : ClientConfig) (url : String) (parsed : ParsedUrl) :
    (∀ s h, parsed.scheme = some s → jsToLower s ∈ COMPATIBLE_SCHEMES →
      parsed.host = some h → h ≠ "" →
      ∃ c2, HttpClient.configure c url parsed = .ok c2
        ∧ c2.scheme = jsToLower s
        ∧ c2.host = h
        ∧ c2.port = parsed.port
        ∧ c2.path = (match parsed.path with | some p => if p = "" then "/" else p | none => "/")
        ∧ c2.requestUrl = url
        ∧ (∀ ui, parsed.userinfo = some ui → ui ≠ "" →
            c2.authUsername = (match userinfoSplit2 ui with | [] => "" | u :: _ => u)
            ∧ c2.authPassword =
                (if (userinfoSplit2 ui).length > 1
                 then joinWithSep ":" ((userinfoSplit2 ui).drop 1) else ""))
        ∧ ((parsed.userinfo = none ∨ parsed.userinfo = some "") →
            c2.authUsername = c.authUsername ∧ c2.authPassword = c.authPassword))
    ∧ ((match parsed.scheme with | some s => jsToLower s | none => "") ∉ COMPATIBLE_SCHEMES
          ∨ parsed.host = none ∨ parsed.host = some "" →
        HttpClient.configure c url parsed
          = .error ⟨"Given URL is not an HTTP client compatible resource"⟩)
    ∧ HttpClient.construct url parsed 30 false
        = HttpClient.configure { timeout := 30 * 1000, returnRawResponse := false } url parsed
    ∧ HttpClient.setUrl c url parsed = HttpClient.configure c url parsed := by
  refine ⟨?_, ?_, rfl, rfl⟩
  · intro s h hs hmem hh hne
    refine ⟨_, configure_ok c url parsed s h hs hmem hh hne, ?_⟩
    rcases parsed.userinfo with _ | ui
    · exact ⟨rfl, rfl, rfl, rfl, rfl, by simp, by simp⟩
    · by_cases hui : ui = ""
      · subst hui
        refine ⟨rfl, rfl, rfl, rfl, rfl, ?_, by simp⟩
        intro ui2 hui2 hne2
        simp at hui2
        exact absurd hui2.symm hne2
      · refine ⟨?_, rfl, rfl, rfl, rfl, ?_, ?_⟩
        · simp [hui, applyUserinfo]
        · intro ui2 hui2 _
          simp at hui2
          subst hui2
          simp [hui, applyUserinfo]
        · intro hcontra
          rcases hcontra with hcontra | hcontra <;> simp at hcontra
          exact absurd hcontra hui
  · intro hbad
    have hcond : ((match parsed.scheme with | some s => jsToLower s | none => "") = ""
        || !COMPATIBLE_SCHEMES.contains
              (match parsed.scheme with | some s => jsToLower s | none => "")
        || (match parsed.host with | some h => h | none => "") = "") = true := by
      rcases hbad with hbad | hbad | hbad
      · rcases hsch : parsed.scheme with _ | s
        · simp
        · rw [hsch] at hbad
          simp only [hsch]
          by_cases hz : jsToLower s = ""
          · simp [hz]
          · simp [hz, hbad]
      · simp [hbad]
      · simp [hbad]
    simp only [HttpClient.configure, hcond, if_true]

/-- Witness for C6: a concrete valid URL and a concrete invalid one. -/
theorem C6_configure_spec_witness :
    (∃ c2, HttpClient.configure {} "http://ex/"
        { scheme := some "HTTP", host := some "ex", path := some "" } = .ok c2
      ∧ c2.scheme = jsToLower "HTTP"
      ∧ c2.host = "ex"
      ∧ c2.port = none
      ∧ c2.path = "/")
    ∧ HttpClient.configure {} "ftp://ex/" { scheme := some "ftp", host := some "ex" }
        = .error ⟨"Given URL is not an HTTP client compatible resource"⟩ := by
  constructor
  · obtain ⟨c2, h1, h2, h3, h4, h5, _⟩ :=
      (C6_configure_spec {} "http://ex/"
        { scheme := some "HTTP", host := some "ex", path := some "" }).1
        "HTTP" "ex" rfl (by decide) rfl (by decide)
    exact ⟨c2, h1, h2, h3, h4, h5⟩
  · exact (C6_configure_spec {} "ftp://ex/"
      { scheme := some "ftp", host := some "ex" }).2.1 (by decide)

/-- Claim C10: when the configured userinfo contains two or more colons,
`userinfo.split(colon, 2)` truncates to two fields, so `configure` stores
the text before the first colon as `authUsername` and ONLY the text between
the first and second colon as `authPassword`; everything after the second
colon is dropped and never stored. -/
theorem C10_userinfo_truncation (c : ClientConfig) (url : String) (parsed : ParsedUrl)
    (s h u p r : String)
    (hs : parsed.scheme = some s) (hmem : jsToLower s ∈ COMPATIBLE_SCHEMES)
    (hh : parsed.host = some h) (hne : h ≠ "")
    (hui : parsed.userinfo = some (u ++ ":" ++ p ++ ":" ++ r))
    (hu : ':' ∉ u.toList) (hp : ':' ∉ p.toList) :
    ∃ c2, HttpClient.configure c url parsed = .ok c2
      ∧ c2.authUsername = u ∧ c2.authPassword = p := by
  have hlist : (u ++ ":" ++ p ++ ":" ++ r).toList
      = u.toList ++ ':' :: (p.toList ++ ':' :: r.toList) := by
    show u.toList ++ ":".toList ++ p.toList ++ ":".toList ++ r.toList = _
    simp
  have hsplit : userinfoSplit2 (u ++ ":" ++ p ++ ":" ++ r) = [u, p] := by
    unfold userinfoSplit2
    rw [hlist, splitOnChar_append _ _ _ hu, splitOnChar_append _ _ _ hp]
    rfl
  have hne2 : (u ++ ":" ++ p ++ ":" ++ r) ≠ "" := by
    intro hz
    have : (u ++ ":" ++ p ++ ":" ++ r).toList = [] := by rw [hz]; rfl
    rw [hlist] at this
    simp at this
  refine ⟨_, configure_ok c url parsed s h hs hmem hh hne, ?_, ?_⟩ <;>
  · simp only [hui]
    rw [if_pos hne2]
    simp [applyUserinfo, hsplit, joinWithSep]

/-- Witness for C10 at userinfo "user:pa:ss". -/
theorem C10_userinfo_truncation_witness :
    ∃ c2, HttpClient.configure {} "http://user:pa:ss@ex/"
        { scheme := some "http", host := some "ex",
          userinfo := some ("user" ++ ":" ++ "pa" ++ ":" ++ "ss") } = .ok c2
      ∧ c2.authUsername = "user" ∧ c2.authPassword = "pa" :=
  C10_userinfo_truncation {} "http://user:pa:ss@ex/"
    { scheme := some "http", host := some "ex",
      userinfo := some ("user" ++ ":" ++ "pa" ++ ":" ++ "ss") }
    "http" "ex" "user" "pa" "ss" rfl (by decide) rfl (by decide) rfl (by decide) (by decide)

/-! ## Lemmas about the response pipeline (claims C3, C4, C5) -/

theorem optionBindSome {α β : Type} (a : α) (f : α → Option β) :
    (some a).bind f = f a := rfl

theorem exceptBindOk {ε α β : Type} (a : α) (f : α → Except ε β) :
    (Except.ok (ε := ε) a >>= f) = f a := rfl

theorem exceptBindErr {ε α β : Type} (e : ε) (f : α → Except ε β) :
    (Except.error (α := α) e >>= f) = Except.error e := rfl

theorem exceptPure {ε α : Type} (a : α) : (pure a : Except ε α) = Except.ok a := rfl

theorem lowRequest_ok (c : ClientConfig) (method : String) (args : RequestArgs)
    (fetch : String → Except JsError ResponseData) (resp : ResponseData)
    (hf : ∀ u, fetch u = .ok resp) :
    HttpClient.lowRequest c method args fetch = .ok (HttpClient.newResponse c method resp) := by
  simp [HttpClient.lowRequest, hf]

theorem request_of_assemble_ok (c : ClientConfig) (method separator : String)
    (params : QueryParams) (data : RequestData) (args : RequestArgs)
    (fetch : String → Except JsError ResponseData) (resp : ResponseData)
    (hargs : assembleRequestArgs c separator params data = .ok args)
    (hf : ∀ u, fetch u = .ok resp) :
    HttpClient.request c method separator params data fetch
      = HttpClient.newResponse c method resp := by
  simp [HttpClient.request, HttpClient.requestInner, requestInnerWith, hargs,
    HttpClient.lowRequest, hf, exceptBindOk, exceptPure]

theorem newResponse_not_ok (c : ClientConfig) (method : String) (resp : ResponseData)
    (hok : resp.ok = false) :
    HttpClient.newResponse c method resp =
      { code := some resp.status
        headers := some (normalizeHeaders resp.headerList)
        body := .jsError ⟨toString resp.status ++ resp.statusText⟩
        rawResponse := if c.returnRawResponse then some resp else none } := by
  simp [HttpClient.newResponse, hok]

theorem newResponse_rawResponse (c : ClientConfig) (method : String) (resp : ResponseData) :
    (HttpClient.newResponse c method resp).rawResponse
      = (if c.returnRawResponse then some resp else none) := by
  simp only [HttpClient.newResponse]
  split
  · rfl
  · split <;> rfl

theorem newResponse_headers (c : ClientConfig) (method : String) (resp : ResponseData) :
    (HttpClient.newResponse c method resp).headers
      = some (normalizeHeaders resp.headerList) := by
  simp only [HttpClient.newResponse]
  split
  · rfl
  · split <;> rfl

/-- Claim C3 counterexample: for a completed 404 response with status text
"Not Found", the envelope body is the Error with message "404Not Found" —
`String(response.status) + response.statusText` concatenates without a
separating space — not the claimed Error("404 Not Found"). -/
theorem C3_counterexample :
    HttpClient.request { requestUrl := "http://h/" } "GET" ";" .none .none
        (fun _ => .ok { status := 404, statusText := "Not Found", ok := false,
                        headerList := [], blobData := "", jsonOutcome := .error ⟨"no"⟩ })
      = { code := some 404, headers := some [], body := .jsError ⟨"404Not Found"⟩,
          rawResponse := none }
    ∧ JsError.mk "404Not Found" ≠ JsError.mk "404 Not Found" :=
  ⟨by decide, by decide⟩

/-- Claim C3 (amended): for every completed response whose status is not
ok, `request` — and `requestGet`, whose extra step is the params rebuild —
resolves without throwing to an envelope whose `code` is the numeric status
and whose `body` is the Error whose message is the status code concatenated
directly with the status text (no separating space); for a 404 "Not Found"
response that message is "404Not Found". -/
theorem C3_non_ok_status (c : ClientConfig) (method separator : String)
    (params : QueryParams) (data : RequestData) (args : RequestArgs)
    (fetch : String → Except JsError ResponseData) (resp : ResponseData)
    (hf : ∀ u, fetch u = .ok resp) (hok : resp.ok = false)
    (hargs : assembleRequestArgs c separator params data = .ok args) :
    HttpClient.request c method separator params data fetch =
      { code := some resp.status
        headers := some (normalizeHeaders resp.headerList)
        body := .jsError ⟨toString resp.status ++ resp.statusText⟩
        rawResponse := if c.returnRawResponse then some resp else none }
    ∧ (∀ ps args2, HttpClient.buildRequestParameters params separator = .ok ps →
        assembleRequestArgs c separator (rebuiltParams ps) .none = .ok args2 →
        HttpClient.requestGet c params separator fetch =
          .ok { code := some resp.status
                headers := some (normalizeHeaders resp.headerList)
                body := .jsError ⟨toString resp.status ++ resp.statusText⟩
                rawResponse := if c.returnRawResponse then some resp else none }) := by
  constructor
  · rw [request_of_assemble_ok c method separator params data args fetch resp hargs hf]
    exact newResponse_not_ok c method resp hok
  · intro ps args2 hps hargs2
    simp only [HttpClient.requestGet, hps, exceptBindOk, exceptPure]
    rw [request_of_assemble_ok c "GET" separator (rebuiltParams ps) .none args2 fetch resp
      hargs2 hf]
    rw [newResponse_not_ok c "GET" resp hok]

/-- Witness for C3 at a concrete 500 response. -/
theorem C3_non_ok_status_witness :
    HttpClient.request { requestUrl := "http://h/" } "GET" ";" .none .none
        (fun _ => .ok { status := 500, statusText := "Server Error", ok := false,
                        headerList := [], blobData := "", jsonOutcome := .error ⟨"no"⟩ })
      = { code := some 500, headers := some [], body := .jsError ⟨"500Server Error"⟩,
          rawResponse := none } := by
  have h :=
    (C3_non_ok_status { requestUrl := "http://h/" } "GET" ";" .none .none
      { headers := [] }
      (fun _ => .ok { status := 500, statusText := "Server Error", ok := false,
                      headerList := [], blobData := "", jsonOutcome := .error ⟨"no"⟩ })
      { status := 500, statusText := "Server Error", ok := false,
        headerList := [], blobData := "", jsonOutcome := .error ⟨"no"⟩ }
      (fun _ => rfl) rfl (by decide)).1
  simpa using h

/-- Claim C4 counterexample: the `_request`-based wrapper variants decode
without inspecting the content type. A completed response with content type
"text/html" — which does not match `application/json` — still has its body
replaced by the decoded JSON value instead of being left exactly as the
base Transport Core produced it (a null body with the raw handle
attached). -/
theorem C4_counterexample :
    HttpJsonClient.request
        { requestUrl := "http://h/", returnRawResponse := true } "GET" ";" .none .none
        (fun _ => .ok { status := 200, statusText := "OK", ok := true,
                        headerList := [("Content-Type", "text/html")], blobData := "<p>",
                        jsonOutcome := .ok (.str "decoded") })
      = { code := some 200, headers := some [("content_type", "text/html")],
          body := .json (.str "decoded"), rawResponse := none }
    ∧ (HttpClient.newResponse { requestUrl := "http://h/", returnRawResponse := true } "GET"
        { status := 200, statusText := "OK", ok := true,
          headerList := [("Content-Type", "text/html")], blobData := "<p>",
          jsonOutcome := .ok (.str "decoded") }).body = .null
    ∧ jsonCtMatches "text/html" = false
    ∧ BodyVal.json (.str "decoded") ≠ BodyVal.null :=
  ⟨by decide, by decide, by decide, by decide⟩

/-- Claim C4 (amended): only the `newResponse`-based wrapper variant gates
the JSON decode on the `content_type` response header (decoding exactly
when the header is present, truthy and passes the unanchored
`application/json` regular expression, and otherwise returning the envelope
exactly as the base layer produced it, raw handle included); the
`_request`-based wrapper variants decode whenever a raw response handle is
present, regardless of content type, and pass the envelope through
unchanged only when no raw handle is attached. -/
theorem C4_content_type_gate (c : ClientConfig) (method : String) (resp : ResponseData) :
    (∀ ct v, headerAssocLookup (normalizeHeaders resp.headerList) "content_type" = some ct →
      ct ≠ "" → jsonCtMatches ct = true → resp.jsonOutcome = .ok v →
      c.returnRawResponse = true →
      HttpJsonClient.newResponse c method resp
        = .ok { HttpClient.newResponse c method resp with body := .json v, rawResponse := none })
    ∧ (∀ ct, headerAssocLookup (normalizeHeaders resp.headerList) "content_type" = some ct →
        (ct = "" ∨ jsonCtMatches ct = false) →
        HttpJsonClient.newResponse c method resp = .ok (HttpClient.newResponse c method resp))
    ∧ (headerAssocLookup (normalizeHeaders resp.headerList) "content_type" = none →
        HttpJsonClient.newResponse c method resp = .ok (HttpClient.newResponse c method resp))
    ∧ (∀ env r v, env.rawResponse = some r → r.jsonOutcome = .ok v →
        jsonFinalizeResponse env = .ok { env with body := .json v, rawResponse := none })
    ∧ (∀ env, env.rawResponse = none → jsonFinalizeResponse env = .ok env) := by
  refine ⟨?_, ?_, ?_, ?_, ?_⟩
  · intro ct v hct hne hmatch hjson hraw
    simp only [HttpJsonClient.newResponse, newResponse_headers, optionBindSome]
    rw [hct]
    simp only [hne, hmatch, ne_eq, not_false_iff, decide_True, Bool.and_self, if_true]
    simp only [handleJsonResponse, newResponse_rawResponse, hraw, if_true, hjson, Except.map]
    simp [newResponse_headers]
  · intro ct hct hbad
    simp only [HttpJsonClient.newResponse, newResponse_headers, optionBindSome]
    rw [hct]
    rcases hbad with hbad | hbad <;> simp [hbad]
  · intro hct
    simp only [HttpJsonClient.newResponse, newResponse_headers, optionBindSome]
    rw [hct]
  · intro env r v h1 h2
    simp [jsonFinalizeResponse, h1, h2, Except.map]
  · intro env h1
    simp [jsonFinalizeResponse, h1]

/-- Witness for C4 at a concrete JSON response. -/
theorem C4_content_type_gate_witness :
    HttpJsonClient.newResponse { requestUrl := "http://h/", returnRawResponse := true } "GET"
        { status := 200, statusText := "OK", ok := true,
          headerList := [("Content-Type", "application/json; charset=utf-8")],
          blobData := "", jsonOutcome := .ok (.num 2) }
      = .ok { HttpClient.newResponse { requestUrl := "http://h/", returnRawResponse := true }
                "GET"
                { status := 200, statusText := "OK", ok := true,
                  headerList := [("Content-Type", "application/json; charset=utf-8")],
                  blobData := "", jsonOutcome := .ok (.num 2) } with
              body := .json (.num 2), rawResponse := none } :=
  (C4_content_type_gate { requestUrl := "http://h/", returnRawResponse := true } "GET"
    { status := 200, statusText := "OK", ok := true,
      headerList := [("Content-Type", "application/json; charset=utf-8")],
      blobData := "", jsonOutcome := .ok (.num 2) }).1
    "application/json; charset=utf-8" (.num 2) (by decide) (by decide) (by decide) rfl rfl

/-- Claim C5 counterexample: a JSON-claiming response whose body is
malformed JSON does NOT surface as a rejected operation — the wrapper
pipeline resolves, and the decode rejection is caught by the inherited
`request` handler and converted into exactly the `code=undefined` envelope
the claim says it is not converted into. -/
theorem C5_counterexample :
    HttpJsonClient.request
        { requestUrl := "http://h/", returnRawResponse := true } "GET" ";" .none .none
        (fun _ => .ok { status := 200, statusText := "OK", ok := true,
                        headerList := [("Content-Type", "application/json")], blobData := "",
                        jsonOutcome := .error ⟨"SyntaxError: Unexpected token"⟩ })
      = { code := none, headers := none,
          body := .jsError ⟨"SyntaxError: Unexpected token"⟩, rawResponse := none } :=
  by decide

/-- Claim C5 (amended): in the `_request`-based wrapper variants the decode
step runs inside the dynamically dispatched `_request`, which the inherited
`request` awaits inside its try block; a malformed-JSON rejection is
therefore caught like a transport error and converted into the envelope
`{code: undefined, headers: undefined, body: decode error}` — the wrapper
call resolves and nothing surfaces as an unhandled rejection. -/
theorem C5_decode_error_caught (c : ClientConfig) (method separator : String)
    (params : QueryParams) (data : RequestData) (c2 : ClientConfig) (d2 : RequestData)
    (args : RequestArgs) (fetch : String → Except JsError ResponseData)
    (resp : ResponseData) (e : JsError)
    (hpre : jsonRequestPreprocess c data = (c2, d2))
    (hraw : c2.returnRawResponse = true)
    (hargs : assembleRequestArgs c2 separator params d2 = .ok args)
    (hf : ∀ u, fetch u = .ok resp)
    (hjson : resp.jsonOutcome = .error e) :
    HttpJsonClient.request c method separator params data fetch
      = { code := none, headers := none, body := .jsError e, rawResponse := none } := by
  have hlow : HttpJsonClient.lowRequest c2 method args fetch = .error e := by
    simp only [HttpJsonClient.lowRequest, HttpClient.lowRequest, hf, exceptBindOk, exceptPure]
    simp only [jsonFinalizeResponse, newResponse_rawResponse, hraw, if_true, hjson, Except.map]
  simp only [HttpJsonClient.request, hpre, HttpJsonClient.requestInner, requestInnerWith,
    hargs, exceptBindOk, hlow, caughtEnvelope]

/-- Witness for C5: the concrete hypotheses of the amended claim hold at a
malformed-JSON response and the wrapper resolves to the caught envelope. -/
theorem C5_decode_error_caught_witness :
    HttpJsonClient.request
        { requestUrl := "http://h/", returnRawResponse := true } "POST" ";" .none
        (.str "x")
        (fun _ => .ok { status := 200, statusText := "OK", ok := true,
                        headerList := [("Content-Type", "application/json")], blobData := "",
                        jsonOutcome := .error ⟨"SyntaxError"⟩ })
      = { code := none, headers := none, body := .jsError ⟨"SyntaxError"⟩,
          rawResponse := none } :=
  C5_decode_error_caught
    { requestUrl := "http://h/", returnRawResponse := true } "POST" ";" .none (.str "x")
    { requestUrl := "http://h/", returnRawResponse := true } (.str "x")
    { headers := [], body := some "x" }
    (fun _ => .ok { status := 200, statusText := "OK", ok := true,
                    headerList := [("Content-Type", "application/json")], blobData := "",
                    jsonOutcome := .error ⟨"SyntaxError"⟩ })
    { status := 200, statusText := "OK", ok := true,
      headerList := [("Content-Type", "application/json")], blobData := "",
      jsonOutcome := .error ⟨"SyntaxError"⟩ }
    ⟨"SyntaxError"⟩ rfl rfl (by decide) (fun _ => rfl) rfl

/-! ## Lemmas about percent encoding (claim C7) -/

theorem char_toNat_lt (c : Char) : c.toNat < 1114112 := by
  rcases c.valid with h | ⟨h1, h2⟩ <;> simp [Char.toNat] <;> omega

theorem hexCharVal_hexDigitChar : ∀ n, n < 16 → hexCharVal (hexDigitChar n) = some n := by
  decide

theorem unreservedChar_hexDigitChar (n : Nat) : unreservedChar (hexDigitChar n) = true := by
  unfold hexDigitChar
  split <;> decide

theorem hexDigitChar_valid (n : Nat) : hexDigitChar n ∈ "0123456789ABCDEF".toList := by
  unfold hexDigitChar
  split <;> decide

theorem utf8Bytes_lt_256 (c : Char) : ∀ b ∈ utf8Bytes c, b < 256 := by
  have hv := char_toNat_lt c
  intro b hb
  by_cases h1 : c.toNat < 128
  · simp [utf8Bytes, h1] at hb
    omega
  · by_cases h2 : c.toNat < 2048
    · simp [utf8Bytes, h1, h2] at hb
      rcases hb with hb | hb <;> omega
    · by_cases h3 : c.toNat < 65536
      · simp [utf8Bytes, h1, h2, h3] at hb
        rcases hb with hb | hb | hb <;> omega
      · simp [utf8Bytes, h1, h2, h3] at hb
        rcases hb with hb | hb | hb | hb <;> omega

theorem decodeUtf8_append (c : Char) (rest : List Nat) :
    decodeUtf8 (utf8Bytes c ++ rest) = (decodeUtf8 rest).map (fun cs => c :: cs) := by
  have hv := char_toNat_lt c
  have hofnat := Char.ofNat_toNat c
  by_cases h1 : c.toNat < 128
  · simp only [utf8Bytes, h1, if_true, List.cons_append, List.nil_append]
    rw [decodeUtf8.eq_def]
    simp only []
    rw [if_pos h1, hofnat]
  · by_cases h2 : c.toNat < 2048
    · simp only [utf8Bytes, h1, h2, if_false, if_true, List.cons_append, List.nil_append]
      rw [decodeUtf8.eq_def]
      simp only []
      rw [if_neg (by omega : ¬(0xC0 + c.toNat / 64 < 0x80)),
        if_neg (by omega : ¬(0xC0 + c.toNat / 64 < 0xC0)),
        if_pos (by omega : 0xC0 + c.toNat / 64 < 0xE0)]
      rw [if_pos (⟨by omega, by omega⟩ :
        0x80 ≤ 0x80 + c.toNat % 64 ∧ 0x80 + c.toNat % 64 < 0xC0)]
      have hval : (0xC0 + c.toNat / 64 - 0xC0) * 64 + (0x80 + c.toNat % 64 - 0x80)
          = c.toNat := by omega
      rw [hval, hofnat]
    · by_cases h3 : c.toNat < 65536
      · simp only [utf8Bytes, h1, h2, h3, if_false, if_true, List.cons_append, List.nil_append]
        rw [decodeUtf8.eq_def]
        simp only []
        rw [if_neg (by omega : ¬(0xE0 + c.toNat / 4096 < 0x80)),
          if_neg (by omega : ¬(0xE0 + c.toNat / 4096 < 0xC0)),
          if_neg (by omega : ¬(0xE0 + c.toNat / 4096 < 0xE0)),
          if_pos (by omega : 0xE0 + c.toNat / 4096 < 0xF0)]
        rw [if_pos (⟨⟨by omega, by omega⟩, by omega, by omega⟩ :
          (0x80 ≤ 0x80 + c.toNat / 64 % 64 ∧ 0x80 + c.toNat / 64 % 64 < 0xC0)
          ∧ (0x80 ≤ 0x80 + c.toNat % 64 ∧ 0x80 + c.toNat % 64 < 0xC0))]
        have hval : (0xE0 + c.toNat / 4096 - 0xE0) * 4096
            + (0x80 + c.toNat / 64 % 64 - 0x80) * 64 + (0x80 + c.toNat % 64 - 0x80)
            = c.toNat := by omega
        rw [hval, hofnat]
      · simp only [utf8Bytes, h1, h2, h3, if_false, List.cons_append, List.nil_append]
        rw [decodeUtf8.eq_def]
        simp only []
        rw [if_neg (by omega : ¬(0xF0 + c.toNat / 262144 < 0x80)),
          if_neg (by omega : ¬(0xF0 + c.toNat / 262144 < 0xC0)),
          if_neg (by omega : ¬(0xF0 + c.toNat / 262144 < 0xE0)),
          if_neg (by omega : ¬(0xF0 + c.toNat / 262144 < 0xF0))]
        rw [if_pos (⟨⟨⟨by omega, by omega⟩, by omega, by omega⟩, by omega, by omega⟩ :
          ((0x80 ≤ 0x80 + c.toNat / 4096 % 64 ∧ 0x80 + c.toNat / 4096 % 64 < 0xC0)
            ∧ (0x80 ≤ 0x80 + c.toNat / 64 % 64 ∧ 0x80 + c.toNat / 64 % 64 < 0xC0))
          ∧ (0x80 ≤ 0x80 + c.toNat % 64 ∧ 0x80 + c.toNat % 64 < 0xC0))]
        have hval : (0xF0 + c.toNat / 262144 - 0xF0) * 262144
            + (0x80 + c.toNat / 4096 % 64 - 0x80) * 4096
            + (0x80 + c.toNat / 64 % 64 - 0x80) * 64 + (0x80 + c.toNat % 64 - 0x80)
            = c.toNat := by omega
        rw [hval, hofnat]

theorem decodeUtf8_flatten (cs : List Char) :
    decodeUtf8 ((cs.map utf8Bytes).flatten) = some cs := by
  induction cs with
  | nil => rfl
  | cons c cs ih =>
    simp only [List.map_cons, List.flatten_cons]
    rw [decodeUtf8_append, ih]
    rfl

theorem percentDecodeBytes_cons_other (c : Char) (rest : List Char)
    (hc1 : ¬(c = '%')) (hc2 : ¬(c = '+')) :
    percentDecodeBytes (c :: rest)
      = (percentDecodeBytes rest).map (fun bs => utf8Bytes c ++ bs) := by
  rw [percentDecodeBytes.eq_def]
  simp only []
  rw [if_neg hc1, if_neg hc2]

theorem percentDecodeBytes_cons_plus (rest : List Char) :
    percentDecodeBytes ('+' :: rest) = (percentDecodeBytes rest).map (fun bs => 32 :: bs) := by
  rw [percentDecodeBytes.eq_def]
  simp only []
  rw [if_neg (by decide : ¬(('+' : Char) = '%'))]
  simp

theorem percentDecodeBytes_cons_escape (h1 h2 : Char) (rest : List Char) (a b : Nat)
    (ha : hexCharVal h1 = some a) (hb : hexCharVal h2 = some b) :
    percentDecodeBytes ('%' :: h1 :: h2 :: rest)
      = (percentDecodeBytes rest).map (fun bs => (a * 16 + b) :: bs) := by
  rw [percentDecodeBytes.eq_def]
  simp only []
  simp only [if_true, eq_self_iff_true, ha, hb]

theorem percentDecodeBytes_triples (bs : List Nat) (rest : List Char)
    (hb : ∀ b ∈ bs, b < 256) :
    percentDecodeBytes
        ((bs.map (fun b => ['%', hexDigitChar (b / 16), hexDigitChar (b % 16)])).flatten ++ rest)
      = (percentDecodeBytes rest).map (fun l => bs ++ l) := by
  induction bs with
  | nil =>
    simp only [List.map_nil, List.flatten_nil, List.nil_append]
    cases percentDecodeBytes rest <;> simp
  | cons b bs ih =>
    have hblt : b < 256 := hb b (List.mem_cons_self _ _)
    have h16 : b / 16 < 16 := by omega
    have h16' : b % 16 < 16 := by omega
    simp only [List.map_cons, List.flatten_cons, List.cons_append, List.append_assoc,
      List.nil_append]
    rw [percentDecodeBytes_cons_escape _ _ _ _ _
      (hexCharVal_hexDigitChar _ h16) (hexCharVal_hexDigitChar _ h16')]
    rw [ih (fun x hx => hb x (List.mem_cons_of_mem _ hx))]
    have hbb : b / 16 * 16 + b % 16 = b := by omega
    rw [hbb]
    cases percentDecodeBytes rest <;> simp

theorem unreservedChar_ne_percent (c : Char) (hu : unreservedChar c = true) : ¬(c = '%') := by
  intro h
  subst h
  exact absurd hu (by decide)

theorem unreservedChar_ne_plus (c : Char) (hu : unreservedChar c = true) : ¬(c = '+') := by
  intro h
  subst h
  exact absurd hu (by decide)

theorem percentDecodeBytes_encodeChar (c : Char) (rest : List Char) :
    percentDecodeBytes (encodeURIComponentChar c ++ rest)
      = (percentDecodeBytes rest).map (fun bs => utf8Bytes c ++ bs) := by
  by_cases hu : unreservedChar c = true
  · simp only [encodeURIComponentChar, hu, if_true, List.cons_append, List.nil_append]
    exact percentDecodeBytes_cons_other c rest (unreservedChar_ne_percent c hu)
      (unreservedChar_ne_plus c hu)
  · simp only [encodeURIComponentChar, hu, if_false, Bool.false_eq_true]
    exact percentDecodeBytes_triples (utf8Bytes c) rest (utf8Bytes_lt_256 c)

theorem percentDecodeBytes_encodeChars (cs : List Char) :
    percentDecodeBytes (encodeURIComponentChars cs) = some ((cs.map utf8Bytes).flatten) := by
  induction cs with
  | nil => rfl
  | cons c cs ih =>
    show percentDecodeBytes (encodeURIComponentChar c ++ encodeURIComponentChars cs) = _
    rw [percentDecodeBytes_encodeChar, ih]
    simp

theorem hexCharVal_ne_percent (h1 : Char) (a : Nat) (h : hexCharVal h1 = some a) :
    h1 ≠ '%' := by
  intro hz
  subst hz
  rw [(by decide : hexCharVal '%' = none)] at h
  cases h

theorem replace20First_cons_ne (c : Char) (l : List Char) (hc : c ≠ '%') :
    replace20First (c :: l) = c :: replace20First l := by
  rw [replace20First.eq_def]
  simp only []
  rw [if_neg ?_]
  simp only [List.isPrefixOf]
  intro hcontra
  simp at hcontra
  exact hc hcontra.1.symm

theorem percentDecodeBytes_replace20First :
    ∀ (n : Nat) (l : List Char) (bs : List Nat), l.length ≤ n →
      percentDecodeBytes l = some bs →
      percentDecodeBytes (replace20First l) = some bs := by
  intro n
  induction n with
  | zero =>
    intro l bs hl hd
    have : l = [] := List.eq_nil_of_length_eq_zero (Nat.le_zero.mp hl)
    subst this
    simpa [replace20First] using hd
  | succ n ih =>
    intro l bs hl hd
    match l with
    | [] => simpa [replace20First] using hd
    | c :: rest =>
      by_cases hc : c = '%'
      · subst hc
        match rest with
        | [] => rw [percentDecodeBytes.eq_def] at hd; simp at hd
        | [h1] => rw [percentDecodeBytes.eq_def] at hd; simp at hd
        | h1 :: h2 :: rest2 =>
          rcases ha : hexCharVal h1 with _ | a
          · rw [percentDecodeBytes.eq_def] at hd
            simp [ha] at hd
          · rcases hb : hexCharVal h2 with _ | b
            · rw [percentDecodeBytes.eq_def] at hd
              simp [ha, hb] at hd
            · rw [percentDecodeBytes_cons_escape h1 h2 rest2 a b ha hb] at hd
              obtain ⟨bs2, hbs2, hcons⟩ := Option.map_eq_some'.mp hd
              by_cases hmatch : h1 = '2' ∧ h2 = '0'
              · obtain ⟨e1, e2⟩ := hmatch
                subst e1
                subst e2
                have ha2 : a = 2 := by
                  rw [(by decide : hexCharVal '2' = some 2)] at ha
                  cases ha
                  rfl
                have hb0 : b = 0 := by
                  rw [(by decide : hexCharVal '0' = some 0)] at hb
                  cases hb
                  rfl
                subst ha2
                subst hb0
                have hrepl : replace20First ('%' :: '2' :: '0' :: rest2) = '+' :: rest2 := by
                  rw [replace20First.eq_def]
                  simp [List.isPrefixOf]
                rw [hrepl, percentDecodeBytes_cons_plus, hbs2]
                simpa using hcons
              · have hne1 : h1 ≠ '%' := hexCharVal_ne_percent h1 a ha
                have hne2 : h2 ≠ '%' := hexCharVal_ne_percent h2 b hb
                have hrepl : replace20First ('%' :: h1 :: h2 :: rest2)
                    = '%' :: h1 :: h2 :: replace20First rest2 := by
                  rw [replace20First.eq_def]
                  simp only []
                  rw [if_neg ?_]
                  · rw [replace20First_cons_ne h1 _ hne1, replace20First_cons_ne h2 _ hne2]
                  · simp only [List.isPrefixOf]
                    intro hcontra
                    simp at hcontra
                    exact hmatch ⟨hcontra.1.symm, hcontra.2.symm⟩
                rw [hrepl]
                have hlen : rest2.length ≤ n := by
                  simp only [List.length_cons] at hl
                  omega
                rw [percentDecodeBytes_cons_escape h1 h2 _ a b ha hb,
                  ih rest2 bs2 hlen hbs2]
                simpa using hcons
      · rw [replace20First_cons_ne c rest hc]
        have hlen : rest.length ≤ n := by
          simp only [List.length_cons] at hl
          omega
        by_cases hp : c = '+'
        · subst hp
          rw [percentDecodeBytes_cons_plus] at hd
          obtain ⟨bs2, hbs2, hcons⟩ := Option.map_eq_some'.mp hd
          rw [percentDecodeBytes_cons_plus, ih rest bs2 hlen hbs2]
          simpa using hcons
        · rw [percentDecodeBytes_cons_other c rest hc hp] at hd
          obtain ⟨bs2, hbs2, hcons⟩ := Option.map_eq_some'.mp hd
          rw [percentDecodeBytes_cons_other c _ hc hp, ih rest bs2 hlen hbs2]
          simpa using hcons

/-- Round trip at the single-segment level: percent-decoding the output of
`HttpClient.encode` recovers the original characters. -/
theorem percentDecodeSegment_encode (s : String) :
    percentDecodeSegment ((HttpClient.encode s).toList) = some s.toList := by
  have h1 : (HttpClient.encode s).toList = replace20First (encodeURIComponentChars s.toList) :=
    rfl
  rw [h1]
  unfold percentDecodeSegment
  rw [percentDecodeBytes_replace20First (encodeURIComponentChars s.toList).length
    (encodeURIComponentChars s.toList) ((s.toList.map utf8Bytes).flatten) (le_refl _)
    (percentDecodeBytes_encodeChars s.toList)]
  simp [decodeUtf8_flatten]

theorem stringToListAppend (s t : String) : (s ++ t).toList = s.toList ++ t.toList := rfl

theorem mem_encodeChar (c x : Char) (hx : x ∈ encodeURIComponentChar c) :
    unreservedChar x = true ∨ x = '%' := by
  unfold encodeURIComponentChar at hx
  by_cases hu : unreservedChar c = true
  · simp [hu] at hx
    subst hx
    exact Or.inl hu
  · rw [Bool.not_eq_true] at hu
    simp only [hu, Bool.false_eq_true, if_false] at hx
    rcases List.mem_flatten.mp hx with ⟨l, hl, hxl⟩
    rcases List.mem_map.mp hl with ⟨b, _, rfl⟩
    simp at hxl
    rcases hxl with rfl | rfl | rfl
    · exact Or.inr rfl
    · exact Or.inl (unreservedChar_hexDigitChar _)
    · exact Or.inl (unreservedChar_hexDigitChar _)

theorem mem_encodeChars (cs : List Char) (x : Char) (hx : x ∈ encodeURIComponentChars cs) :
    unreservedChar x = true ∨ x = '%' := by
  unfold encodeURIComponentChars at hx
  rcases List.mem_flatten.mp hx with ⟨l, hl, hxl⟩
  rcases List.mem_map.mp hl with ⟨c, _, rfl⟩
  exact mem_encodeChar c x hxl

theorem mem_replace20First : ∀ (l : List Char) (x : Char), x ∈ replace20First l →
    x ∈ l ∨ x = '+' := by
  intro l
  induction l with
  | nil => intro x hx; simp [replace20First] at hx
  | cons c rest ih =>
    intro x hx
    rw [replace20First.eq_def] at hx
    simp only [] at hx
    by_cases hpre : ['%', '2', '0'].isPrefixOf (c :: rest) = true
    · rw [if_pos hpre] at hx
      rcases List.mem_cons.mp hx with rfl | hx
      · exact Or.inr rfl
      · exact Or.inl (List.mem_cons_of_mem _ (List.mem_of_mem_drop hx))
    · rw [if_neg hpre] at hx
      rcases List.mem_cons.mp hx with rfl | hx
      · exact Or.inl (List.mem_cons_self _ _)
      · rcases ih x hx with h | h
        · exact Or.inl (List.mem_cons_of_mem _ h)
        · exact Or.inr h

theorem encode_charset (s : String) (x : Char) (hx : x ∈ (HttpClient.encode s).toList) :
    unreservedChar x = true ∨ x = '%' ∨ x = '+' := by
  have h0 : (HttpClient.encode s).toList = replace20First (encodeURIComponentChars s.toList) :=
    rfl
  rw [h0] at hx
  rcases mem_replace20First _ x hx with h | h
  · rcases mem_encodeChars _ x h with h2 | h2
    · exact Or.inl h2
    · exact Or.inr (Or.inl h2)
  · exact Or.inr (Or.inr h)

theorem semicolon_not_mem_encode (s : String) : ';' ∉ (HttpClient.encode s).toList := by
  intro h
  rcases encode_charset s ';' h with h1 | h1 | h1
  · exact absurd h1 (by decide)
  · exact absurd h1 (by decide)
  · exact absurd h1 (by decide)

theorem eq_not_mem_encode (s : String) : '=' ∉ (HttpClient.encode s).toList := by
  intro h
  rcases encode_charset s '=' h with h1 | h1 | h1
  · exact absurd h1 (by decide)
  · exact absurd h1 (by decide)
  · exact absurd h1 (by decide)

theorem buildEntry_eq (k : String) (v : QueryVal) :
    buildEntry k v = HttpClient.encode k ++ "=" ++ HttpClient.encode (queryValString v) := by
  cases v with
  | str s => rfl
  | num n => rfl
  | bool b =>
    cases b
    · show HttpClient.encode k ++ "=0" = HttpClient.encode k ++ "=" ++ HttpClient.encode "0"
      rw [(by decide : HttpClient.encode "0" = "0"), String.append_assoc]
      exact congrArg (fun t => HttpClient.encode k ++ t) (by decide)
    · show HttpClient.encode k ++ "=1" = HttpClient.encode k ++ "=" ++ HttpClient.encode "1"
      rw [(by decide : HttpClient.encode "1" = "1"), String.append_assoc]
      exact congrArg (fun t => HttpClient.encode k ++ t) (by decide)

theorem splitOnChar_eq_entry (k : String) (v : QueryVal) :
    splitOnChar '=' ((buildEntry k v).toList)
      = [(HttpClient.encode k).toList, (HttpClient.encode (queryValString v)).toList] := by
  rw [buildEntry_eq]
  have h : (HttpClient.encode k ++ "=" ++ HttpClient.encode (queryValString v)).toList
      = (HttpClient.encode k).toList ++ '=' :: (HttpClient.encode (queryValString v)).toList := by
    rw [stringToListAppend, stringToListAppend]
    simp
  rw [h, splitOnChar_append '=' _ _ (eq_not_mem_encode k),
    splitOnChar_no_sep '=' _ (eq_not_mem_encode _)]

theorem entry_no_semicolon (k : String) (v : QueryVal) : ';' ∉ (buildEntry k v).toList := by
  rw [buildEntry_eq]
  intro h
  rw [stringToListAppend, stringToListAppend] at h
  rcases List.mem_append.mp h with h2 | h2
  · rcases List.mem_append.mp h2 with h3 | h3
    · exact semicolon_not_mem_encode k h3
    · exact absurd h3 (by decide)
  · exact semicolon_not_mem_encode _ h2

theorem splitOnChar_join_entries :
    ∀ (es : List (String × QueryVal)), es ≠ [] →
      splitOnChar ';' ((joinWithSep ";" (es.map (fun e => buildEntry e.1 e.2))).toList)
        = es.map (fun e => (buildEntry e.1 e.2).toList) := by
  intro es
  induction es with
  | nil => intro h; exact absurd rfl h
  | cons e es ih =>
    intro _
    cases es with
    | nil =>
      show splitOnChar ';' ((buildEntry e.1 e.2).toList) = [(buildEntry e.1 e.2).toList]
      rw [splitOnChar_no_sep ';' _ (entry_no_semicolon e.1 e.2)]
    | cons e2 es2 =>
      show splitOnChar ';'
          ((buildEntry e.1 e.2 ++ ";"
            ++ joinWithSep ";"
                (buildEntry e2.1 e2.2 :: es2.map (fun e => buildEntry e.1 e.2))).toList)
        = (buildEntry e.1 e.2).toList :: (e2 :: es2).map (fun e => (buildEntry e.1 e.2).toList)
      have h : (buildEntry e.1 e.2 ++ ";"
            ++ joinWithSep ";"
                (buildEntry e2.1 e2.2 :: es2.map (fun e => buildEntry e.1 e.2))).toList
          = (buildEntry e.1 e.2).toList ++ ';'
            :: (joinWithSep ";" (buildEntry e2.1 e2.2
                  :: es2.map (fun e => buildEntry e.1 e.2))).toList := by
        rw [stringToListAppend, stringToListAppend]
        simp
      rw [h, splitOnChar_append ';' _ _ (entry_no_semicolon e.1 e.2)]
      have h2 := ih (by simp)
      simp only [List.map_cons] at h2
      rw [h2]
      simp

/-- Claim C7 counterexample: `HttpClient.encode` replaces only the FIRST
"%20" by "+" (JavaScript `String.replace` with a string pattern), so a value
with two spaces violates the claimed rendering in which EVERY space is
encoded as "+". -/
theorem C7_counterexample :
    HttpClient.buildRequestParameters (.obj [("a", .str "b c d")]) ";" = .ok (some "a=b+c%20d")
    ∧ specEncodeEverySpacePlus "b c d" = "b+c+d"
    ∧ HttpClient.encode "b c d" = "b+c%20d"
    ∧ ("b+c%20d" : String) ≠ "b+c+d" :=
  ⟨by decide, by decide, by decide, by decide⟩

/-- Claim C7 (amended): for every non-empty mapping with string, number and
boolean values, `buildRequestParameters(params, ";")` renders the entries in
the order of the mapping, each as key=value with key and value
percent-encoded and only the FIRST space of each segment encoded as "+"
(later spaces stay "%20"), booleans as "1"/"0"; splitting the output on ";"
and each entry on "=" and percent-decoding each segment (decoding "+" as
space) recovers each original key and rendered value exactly. -/
theorem C7_build_roundtrip (entries : List (String × QueryVal)) (hne : entries ≠ []) :
    HttpClient.buildRequestParameters (.obj entries) ";"
      = .ok (some (joinWithSep ";" (entries.map (fun e => buildEntry e.1 e.2))))
    ∧ ((splitOnChar ';'
          ((joinWithSep ";" (entries.map (fun e => buildEntry e.1 e.2))).toList)).map
        (fun seg => (splitOnChar '=' seg).map percentDecodeSegment))
      = entries.map (fun e => [some e.1.toList, some (queryValString e.2).toList]) := by
  refine ⟨rfl, ?_⟩
  rw [splitOnChar_join_entries entries hne, List.map_map]
  apply List.map_congr_left
  intro e _
  simp only [Function.comp]
  rw [splitOnChar_eq_entry e.1 e.2]
  simp only [List.map_cons, List.map_nil]
  rw [percentDecodeSegment_encode e.1, percentDecodeSegment_encode (queryValString e.2)]

/-- Witness for C7 at a concrete two-entry mapping. -/
theorem C7_build_roundtrip_witness :
    ([("k 1", QueryVal.str "v a"), ("b", QueryVal.bool true)]
        : List (String × QueryVal)) ≠ []
    ∧ ((splitOnChar ';'
          ((joinWithSep ";"
            ([("k 1", QueryVal.str "v a"), ("b", QueryVal.bool true)].map
              (fun e => buildEntry e.1 e.2))).toList)).map
        (fun seg => (splitOnChar '=' seg).map percentDecodeSegment))
      = [("k 1", QueryVal.str "v a"), ("b", QueryVal.bool true)].map
          (fun e => [some e.1.toList, some (queryValString e.2).toList]) :=
  ⟨by decide,
   (C7_build_roundtrip [("k 1", QueryVal.str "v a"), ("b", QueryVal.bool true)] (by decide)).2⟩

end DjtHttpClient
